import Mathlib

/-!
Verification of the vegomatic core algorithms against their specification.

This file gives a shallow embedding of the two algorithmic subsystems of the
vegomatic repository and proves/refutes the frozen claims about them:

* the field-type inference engine (src/vegomatic/datafetch/datafetch.py:
  is_date, DataFetch._infer_field_type, DataFetch.dict_fields,
  DataFetch.dict_create_table);
* the cursor-pagination loops (src/vegomatic/gqlf_github/gqlfetch_github.py:
  GqlFetchGithub.get_repositories, GqlFetchGithub.get_repo_prs,
  GqlFetchGithub.pr_permalink_to_name;
  src/vegomatic/gqlf_linear/gqlfetch_linear.py: GqlFetchLinear.get_teams;
  examples/github_fetch.py: the adaptive throttle of fetch_prs_callback).

Python dictionaries are modelled as association lists that keep insertion
order; Python exceptions are modelled with Except; Python floats are modelled
with rationals.  The behaviour of Python builtins used by the code (sorted,
str.lower, str.replace, float and int parsing) and of the external dateutil
parser is modelled by executable Lean functions defined below.
-/

namespace Vegomatic

/-! ### Models of the Python string builtins used by the code -/

/-- Comparison of characters by code point, as Python compares strings. -/
def lexLeB : List Char → List Char → Bool
  | [], _ => true
  | _ :: _, [] => false
  | a :: as, b :: bs =>
    if a.toNat < b.toNat then true
    else if b.toNat < a.toNat then false
    else lexLeB as bs

/-- Lexicographic string order by code point (the order used by Python sorted). -/
def strLeB (a b : String) : Bool := lexLeB a.data b.data

/-- Insert a string into an already sorted list (helper for py_sorted). -/
def strInsert (x : String) : List String → List String
  | [] => [x]
  | y :: ys => if strLeB x y then x :: y :: ys else y :: strInsert x ys

/-- Model of the Python builtin sorted on a list of strings (insertion sort;
only the resulting ascending order matters). -/
def py_sorted : List String → List String
  | [] => []
  | x :: xs => strInsert x (py_sorted xs)

/-- Helper for py_dedup: drop elements already seen, keeping first occurrences. -/
def dedupAux : List String → List String → List String
  | _, [] => []
  | seen, x :: xs =>
    if x ∈ seen then dedupAux seen xs else x :: dedupAux (x :: seen) xs

/-- Model of collecting a Python set from a list of strings: unique elements.
The code only ever sorts the set afterwards, so only the underlying set of
elements matters. -/
def py_dedup (l : List String) : List String := dedupAux [] l

/-- Model of the Python str.lower method (the code only applies it to ASCII
strings such as "True"). -/
def py_lower (s : String) : String := ⟨s.data.map Char.toLower⟩

/-- Check whether the second character list starts with the first one
(helper for py_replace). -/
def charsStartWith : List Char → List Char → Bool
  | [], _ => true
  | _ :: _, [] => false
  | p :: ps, c :: cs => p == c && charsStartWith ps cs

/-- Fuelled worker for py_replace; the fuel is the length of the subject so
the recursion is structural. -/
def replFuel (pat rep : List Char) : Nat → List Char → List Char
  | 0, s => s
  | _ + 1, [] => []
  | fuel + 1, c :: cs =>
    if charsStartWith pat (c :: cs) && decide (0 < pat.length) then
      rep ++ replFuel pat rep fuel (List.drop pat.length (c :: cs))
    else
      c :: replFuel pat rep fuel cs

/-- Model of the Python str.replace method: replace every occurrence of pat
in s by rep, scanning left to right. -/
def py_replace (s pat rep : String) : String :=
  ⟨replFuel pat.data rep.data s.data.length s.data⟩

/-! ### Python values and records -/

/-- Model of a Python value as stored in a record or a GraphQL response:
None, bool, int, float (modelled as a rational), str, datetime (abstracted to
a timestamp), list, dict (association list in insertion order). -/
inductive PyVal where
  | vnone
  | vbool (b : Bool)
  | vint (n : Int)
  | vfloat (q : ℚ)
  | vstr (s : String)
  | vdatetime (t : Int)
  | vlist (xs : List PyVal)
  | vdict (d : List (String × PyVal))

/-- Model of a Python dict record: field name to value, in insertion order,
keys unique. -/
abbrev Record := List (String × PyVal)

/-- Keys of a record, in insertion order (Python dict.keys()). -/
def record_keys (r : Record) : List String := r.map (·.1)

/-- Membership test and lookup for a record (Python: key in d, d[key]). -/
def record_get (r : Record) (k : String) : Option PyVal :=
  (r.find? (fun p => p.1 == k)).map (·.2)

/-! ### String parse oracles

The code delegates three questions about strings to external parsers:
dateutil.parser.parse acceptance (via the local is_date), Python float()
acceptance and Python int() acceptance.  The inference structure is proved
for EVERY assignment of these three predicates; concrete evaluations use the
models defined further below. -/

/-- Acceptance predicates of the external string parsers the code calls:
is_date (dateutil.parser.parse succeeds), float() succeeds, int() succeeds. -/
structure StrOracle where
  isDate : String → Bool
  floatOk : String → Bool
  intOk : String → Bool

/-! ### DataFetch._infer_field_type (datafetch.py lines 219-298) -/

/-- Condition counted by the datetime loop of _infer_field_type: the value is
a datetime instance, or a string accepted by is_date. -/
def dt_match (o : StrOracle) : PyVal → Bool
  | .vdatetime _ => true
  | .vstr s => o.isDate s
  | _ => false

/-- Condition counted by the boolean loop of _infer_field_type: a bool, an
int equal to 0 or 1, or a string whose lower case form is "true" or "false".
The branches mirror the if/elif chain of the source (a Python bool is an
instance of int but is caught by the first branch). -/
def bool_match : PyVal → Bool
  | .vbool _ => true
  | .vint n => n == 0 || n == 1
  | .vstr s => py_lower s == "true" || py_lower s == "false"
  | _ => false

/-- Condition counted by the float loop of _infer_field_type: a float
instance, or a string accepted by float(). -/
def float_match (o : StrOracle) : PyVal → Bool
  | .vfloat _ => true
  | .vstr s => o.floatOk s
  | _ => false

/-- Condition counted by the int loop of _infer_field_type: an int instance
(in Python this includes bools, since isinstance(True, int) holds), or a
string accepted by int(). -/
def int_match (o : StrOracle) : PyVal → Bool
  | .vbool _ => true
  | .vint _ => true
  | .vstr s => o.intOk s
  | _ => false

/-- Values collected for a key by _infer_field_type: the value under that key
in every record that contains it key, in record order. -/
def field_values (data_list : List Record) (key : String) : List PyVal :=
  data_list.filterMap (fun r => record_get r key)

/-- Embedding of DataFetch._infer_field_type: collect the values for the key,
default to string when there are none, then return the first of
datetime/boolean/double/integer whose counting loop found at least one
matching value, else string. -/
def infer_field_type (o : StrOracle) (data_list : List Record) (key : String) : String :=
  let values := field_values data_list key
  if values.isEmpty then "string"
  else if 0 < values.countP (fun v => dt_match o v) then "datetime"
  else if 0 < values.countP (fun v => bool_match v) then "boolean"
  else if 0 < values.countP (fun v => float_match o v) then "double"
  else if 0 < values.countP (fun v => int_match o v) then "integer"
  else "string"

/-! ### Specification-side restatement of the type precedence (for claim C1) -/

/-- Modelled from the spec rule (a): datetime if the value is a datetime
instance or a string parseable as a date/time. -/
def spec_rule_datetime (o : StrOracle) : PyVal → Bool
  | .vdatetime _ => true
  | .vstr s => o.isDate s
  | _ => false

/-- Modelled from the spec rule (b): boolean if the value is a boolean, an
integer restricted to 0 or 1, or a string equal case-insensitively to
"true" or "false". -/
def spec_rule_boolean : PyVal → Bool
  | .vbool _ => true
  | .vint n => n == 0 || n == 1
  | .vstr s => py_lower s == "true" || py_lower s == "false"
  | _ => false

/-- Modelled from the spec rule (c): double if the value is a floating-point
number or a string parseable as a float. -/
def spec_rule_double (o : StrOracle) : PyVal → Bool
  | .vfloat _ => true
  | .vstr s => o.floatOk s
  | _ => false

/-- Modelled from the spec rule (d): integer if the value is an integer or a
string parseable as an integer.  Note that, unlike the int counting loop of
the code, this rule does not mention booleans. -/
def spec_rule_integer (o : StrOracle) : PyVal → Bool
  | .vint _ => true
  | .vstr s => o.intOk s
  | _ => false

/-- Modelled from the spec precedence statement: the first rule of
(a) datetime, (b) boolean, (c) double, (d) integer matched by ANY value of
the per-field value list wins; a field with an empty value list is string;
otherwise string. -/
def spec_field_type (o : StrOracle) (data_list : List Record) (key : String) : String :=
  let values := field_values data_list key
  if values.isEmpty then "string"
  else if values.any (fun v => spec_rule_datetime o v) then "datetime"
  else if values.any (fun v => spec_rule_boolean v) then "boolean"
  else if values.any (fun v => spec_rule_double o v) then "double"
  else if values.any (fun v => spec_rule_integer o v) then "integer"
  else "string"

/-! ### DataFetch.dict_fields (datafetch.py lines 151-216) -/

/-- Error raised by dict_fields: the inconsistency ValueError of line 208
(with the key and the two differing types), or a key lookup failure of the
field_types dict (cannot happen, proved below). -/
inductive DfError where
  | inconsistent (key t1 t2 : String)
  | key_error (key : String)

/-- State of the field_types dict of dict_fields: key to inferred type or
None, in insertion order. -/
abbrev FtState := List (String × Option String)

/-- Assignment field_types[key] = some ty (the key is already present, so the
entry is overwritten in place). -/
def ft_update (ft : FtState) (key ty : String) : FtState :=
  ft.map (fun p => if p.1 == key then (p.1, some ty) else p)

/-- Embedding of the inner loop body of dict_fields (lines 197-208) for one
record and one key: skip keys not in the record, otherwise recompute the
field type over the whole data list; store it if not yet recorded, raise the
inconsistency ValueError if it differs from the recorded one. -/
def step_key (o : StrOracle) (data_list : List Record) (r : Record)
    (ft : FtState) (key : String) : Except DfError FtState :=
  if (record_keys r).contains key then
    let new_ty := infer_field_type o data_list key
    match ft.find? (fun p => p.1 == key) with
    | none => .error (.key_error key)
    | some p =>
      match p.2 with
      | none => .ok (ft_update ft key new_ty)
      | some t =>
        if t == new_ty then .ok ft else .error (.inconsistent key t new_ty)
  else .ok ft

/-- Embedding of the double loop of dict_fields: for every record of the data
list, for every key of all_keys, run step_key. -/
def infer_loop (o : StrOracle) (data_list : List Record) (keys : List String)
    (ft : FtState) (recs : List Record) : Except DfError FtState :=
  recs.foldlM (fun ft r => keys.foldlM (step_key o data_list r) ft) ft

/-- The all_keys set of dict_fields, sorted as by sorted(all_keys): the union
of the keys of all records, without duplicates, in ascending order. -/
def all_keys_sorted (data_list : List Record) : List String :=
  py_sorted (py_dedup (data_list.foldl (fun acc r => acc ++ record_keys r) []))

/-- Embedding of DataFetch.dict_fields.  The result models the returned list
of pydal Field objects as pairs of the field name and the recorded type
(an Option String: the initial None is only replaced once the key is seen in
a record).  After the loop, the fields are rebuilt in field_types order and
then filtered/reordered by the keys of the first record (line 215). -/
def dict_fields (o : StrOracle) (data_list : List Record) :
    Except DfError (List (String × Option String)) :=
  match data_list with
  | [] => .ok []
  | first_dict :: _ =>
    let keys := all_keys_sorted data_list
    let ft0 : FtState := keys.map (fun k => (k, (none : Option String)))
    (infer_loop o data_list keys ft0 data_list).map
      (fun ft => (record_keys first_dict).flatMap (fun k => ft.filter (fun p => p.1 == k)))

/-! ### Concrete models of the external string parsers -/

/-- Modelled from the spec: acceptance of dateutil.parser.parse (called by
is_date, datafetch.py lines 17-29) on the fragment of strings exercised in
this development.  dateutil parses a bare one- or two-digit numeral (as a
day-of-month or a two-digit year), and rejects alphabetic tokens such as
"x", "true" or "false". -/
def dateutil_accepts (s : String) : Bool :=
  decide (0 < s.data.length) && s.data.all Char.isDigit && decide (s.data.length ≤ 2)

/-- Modelled from the spec: acceptance of the Python float() constructor,
restricted to the decimal fragment exercised here: an optional sign followed
by digits with at most one decimal point and at least one digit. -/
def python_float_accepts (s : String) : Bool :=
  let cs := if s.data.head? = some '-' || s.data.head? = some '+' then s.data.tail else s.data
  cs.all (fun c => c.isDigit || c == '.') && (cs.count '.' ≤ 1) && cs.any Char.isDigit

/-- Modelled from the spec: acceptance of the Python int() constructor on the
decimal fragment exercised here: an optional sign followed by at least one
digit. -/
def python_int_accepts (s : String) : Bool :=
  let cs := if s.data.head? = some '-' || s.data.head? = some '+' then s.data.tail else s.data
  decide (0 < cs.length) && cs.all Char.isDigit

/-- The concrete string oracle: dateutil, float() and int() acceptance. -/
def py_oracle : StrOracle :=
  { isDate := dateutil_accepts
    floatOk := python_float_accepts
    intOk := python_int_accepts }

/-! ### Claim C1: the counting loops implement the spec precedence -/

theorem dt_match_eq_spec (o : StrOracle) (v : PyVal) :
    dt_match o v = spec_rule_datetime o v := by
  cases v <;> rfl

theorem bool_match_eq_spec (v : PyVal) : bool_match v = spec_rule_boolean v := by
  cases v <;> rfl

theorem float_match_eq_spec (o : StrOracle) (v : PyVal) :
    float_match o v = spec_rule_double o v := by
  cases v <;> rfl

theorem countP_pos_iff_any (p : PyVal → Bool) (l : List PyVal) :
    0 < l.countP p ↔ l.any p = true := by
  rw [List.countP_pos_iff, List.any_eq_true]

/-- C1: for every sample of records and every field name, the type assigned
by _infer_field_type is the one given by the spec precedence
datetime, boolean, double, integer, string, where the first rule matched by
ANY value of the per-field value list wins, and a field whose value list is
empty gets type string.  The equality holds for every behaviour of the
external string parsers. -/
theorem infer_field_type_follows_precedence (o : StrOracle)
    (data_list : List Record) (key : String) :
    infer_field_type o data_list key = spec_field_type o data_list key := by
  simp only [infer_field_type, spec_field_type]
  set values := field_values data_list key with hvals
  have edt : (0 < values.countP (fun v => dt_match o v)) ↔
      values.any (fun v => spec_rule_datetime o v) = true := by
    rw [countP_pos_iff_any]
    rw [List.any_eq_true, List.any_eq_true]
    exact exists_congr (fun v => and_congr_right (fun _ => by rw [dt_match_eq_spec]))
  have ebool : (0 < values.countP (fun v => bool_match v)) ↔
      values.any (fun v => spec_rule_boolean v) = true := by
    rw [countP_pos_iff_any]
    rw [List.any_eq_true, List.any_eq_true]
    exact exists_congr (fun v => and_congr_right (fun _ => by rw [bool_match_eq_spec]))
  have edbl : (0 < values.countP (fun v => float_match o v)) ↔
      values.any (fun v => spec_rule_double o v) = true := by
    rw [countP_pos_iff_any]
    rw [List.any_eq_true, List.any_eq_true]
    exact exists_congr (fun v => and_congr_right (fun _ => by rw [float_match_eq_spec]))
  by_cases hemp : values.isEmpty = true
  · rw [if_pos hemp, if_pos hemp]
  · rw [if_neg hemp, if_neg hemp]
    by_cases hdt : 0 < values.countP (fun v => dt_match o v)
    · rw [if_pos hdt, if_pos (edt.mp hdt)]
    · rw [if_neg hdt, if_neg (fun h => hdt (edt.mpr h))]
      by_cases hbool : 0 < values.countP (fun v => bool_match v)
      · rw [if_pos hbool, if_pos (ebool.mp hbool)]
      · rw [if_neg hbool, if_neg (fun h => hbool (ebool.mpr h))]
        by_cases hdbl : 0 < values.countP (fun v => float_match o v)
        · rw [if_pos hdbl, if_pos (edbl.mp hdbl)]
        · rw [if_neg hdbl, if_neg (fun h => hdbl (edbl.mpr h))]
          have hb0 : ∀ v ∈ values, bool_match v = false := by
            intro v hv
            by_contra hne
            exact hbool (List.countP_pos_iff.mpr ⟨v, hv, by simpa using hne⟩)
          have eint : (0 < values.countP (fun v => int_match o v)) ↔
              values.any (fun v => spec_rule_integer o v) = true := by
            rw [countP_pos_iff_any]
            rw [List.any_eq_true, List.any_eq_true]
            refine exists_congr (fun v => and_congr_right (fun hv => ?_))
            have hb := hb0 v hv
            cases v with
            | vbool b => simp [bool_match] at hb
            | _ => rfl
          by_cases hint : 0 < values.countP (fun v => int_match o v)
          · rw [if_pos hint, if_pos (eint.mp hint)]
          · rw [if_neg hint, if_neg (fun h => hint (eint.mpr h))]

/-! ### The dict_fields loop: invariant and pure characterization -/

/-- Invariant of the field_types state: every recorded type is either still
None or exactly the type _infer_field_type computes for that key over the
whole data list. -/
def FtInv (o : StrOracle) (data_list : List Record) (ft : FtState) : Prop :=
  ∀ p ∈ ft, p.2 = none ∨ p.2 = some (infer_field_type o data_list p.1)

theorem eq_of_mem_of_nodup_keys {β : Type} {l : List (String × β)}
    (h : (l.map Prod.fst).Nodup) {p q : String × β}
    (hp : p ∈ l) (hq : q ∈ l) (hk : p.1 = q.1) : p = q := by
  induction l with
  | nil => cases hp
  | cons a as ih =>
    rw [List.map_cons, List.nodup_cons] at h
    rcases List.mem_cons.mp hp with rfl | hp' <;>
      rcases List.mem_cons.mp hq with rfl | hq'
    · rfl
    · exact absurd (hk ▸ List.mem_map_of_mem Prod.fst hq') h.1
    · exact absurd (hk ▸ List.mem_map_of_mem Prod.fst hp') h.1
    · exact ih h.2 hp' hq'

theorem ft_update_keys (ft : FtState) (k ty : String) :
    (ft_update ft k ty).map Prod.fst = ft.map Prod.fst := by
  unfold ft_update
  rw [List.map_map]
  refine List.map_congr_left (fun p _ => ?_)
  simp only [Function.comp_apply]
  by_cases h : p.1 == k
  · rw [if_pos h]
  · rw [if_neg h]

theorem ft_update_inv (o : StrOracle) (data_list : List Record)
    {ft : FtState} (hinv : FtInv o data_list ft) (k : String) :
    FtInv o data_list (ft_update ft k (infer_field_type o data_list k)) := by
  intro q hq
  unfold ft_update at hq
  obtain ⟨p, hp, rfl⟩ := List.mem_map.mp hq
  by_cases h : p.1 == k
  · rw [if_pos h]
    right
    have : p.1 = k := by simpa using h
    rw [this]
  · rw [if_neg h]
    exact hinv p hp

theorem ft_update_of_recorded {ft : FtState} (hnd : (ft.map Prod.fst).Nodup)
    {p : String × Option String} (hp : p ∈ ft) {ty : String}
    (hval : p.2 = some ty) : ft_update ft p.1 ty = ft := by
  unfold ft_update
  have : ∀ q ∈ ft, (if q.1 == p.1 then (q.1, some ty) else q) = q := by
    intro q hq
    by_cases h : q.1 == p.1
    · rw [if_pos h]
      have hqp : q = p := eq_of_mem_of_nodup_keys hnd hq hp (by simpa using h)
      rw [hqp, ← hval]
    · rw [if_neg h]
  rw [List.map_congr_left this, List.map_id']


theorem except_bind_ok {ε α β : Type} (a : α) (f : α → Except ε β) :
    (Except.ok a >>= f) = f a := rfl

/-- One iteration of the inner loop of dict_fields never raises and acts as a
pure in-place update of the recorded type. -/
theorem step_key_eq (o : StrOracle) (data_list : List Record) (r : Record)
    {ft : FtState} {k : String}
    (hmem : k ∈ ft.map Prod.fst) (hnd : (ft.map Prod.fst).Nodup)
    (hinv : FtInv o data_list ft) :
    step_key o data_list r ft k =
      .ok (if (record_keys r).contains k
           then ft_update ft k (infer_field_type o data_list k) else ft) := by
  unfold step_key
  by_cases hc : (record_keys r).contains k
  · rw [if_pos hc, if_pos hc]
    cases hfind : ft.find? (fun p => p.1 == k) with
    | none =>
      exfalso
      obtain ⟨p, hp, hpk⟩ := List.mem_map.mp hmem
      have := List.find?_eq_none.mp hfind p hp
      simp [hpk] at this
    | some p =>
      have hpk : p.1 = k := by simpa using List.find?_some hfind
      have hpmem : p ∈ ft := List.mem_of_find?_eq_some hfind
      obtain ⟨pk, pv⟩ := p
      dsimp only at hpk
      subst hpk
      rcases hinv (pk, pv) hpmem with hv | hv
      · dsimp only at hv
        subst hv
        rfl
      · dsimp only at hv
        subst hv
        simp only [beq_self_eq_true, if_true]
        rw [ft_update_of_recorded hnd hpmem rfl]
  · rw [if_neg hc, if_neg hc]

/-- Pure version of the inner loop of dict_fields over one record. -/
def inner_pure (o : StrOracle) (data_list : List Record) (r : Record)
    (keys : List String) (ft : FtState) : FtState :=
  keys.foldl
    (fun ft k =>
      if (record_keys r).contains k
      then ft_update ft k (infer_field_type o data_list k) else ft)
    ft

theorem inner_pure_nil (o : StrOracle) (data_list : List Record) (r : Record)
    (ft : FtState) : inner_pure o data_list r [] ft = ft := rfl

theorem inner_pure_cons (o : StrOracle) (data_list : List Record) (r : Record)
    (k : String) (ks : List String) (ft : FtState) :
    inner_pure o data_list r (k :: ks) ft =
      inner_pure o data_list r ks
        (if (record_keys r).contains k
         then ft_update ft k (infer_field_type o data_list k) else ft) := rfl

theorem inner_pure_keys (o : StrOracle) (data_list : List Record) (r : Record)
    (keys : List String) (ft : FtState) :
    (inner_pure o data_list r keys ft).map Prod.fst = ft.map Prod.fst := by
  induction keys generalizing ft with
  | nil => rfl
  | cons k ks ih =>
    rw [inner_pure_cons]
    by_cases hc : (record_keys r).contains k
    · rw [if_pos hc, ih, ft_update_keys]
    · rw [if_neg hc, ih]

theorem inner_pure_inv (o : StrOracle) (data_list : List Record) (r : Record)
    (keys : List String) {ft : FtState} (hinv : FtInv o data_list ft) :
    FtInv o data_list (inner_pure o data_list r keys ft) := by
  induction keys generalizing ft with
  | nil => exact hinv
  | cons k ks ih =>
    rw [inner_pure_cons]
    by_cases hc : (record_keys r).contains k
    · rw [if_pos hc]
      exact ih (ft_update_inv o data_list hinv k)
    · rw [if_neg hc]
      exact ih hinv

theorem inner_loop_eq (o : StrOracle) (data_list : List Record) (r : Record)
    (keys : List String) {ft : FtState}
    (hmem : ∀ k ∈ keys, k ∈ ft.map Prod.fst) (hnd : (ft.map Prod.fst).Nodup)
    (hinv : FtInv o data_list ft) :
    keys.foldlM (step_key o data_list r) ft = .ok (inner_pure o data_list r keys ft) := by
  induction keys generalizing ft with
  | nil => rfl
  | cons k ks ih =>
    rw [List.foldlM_cons, step_key_eq o data_list r (hmem k (.head ks)) hnd hinv,
      except_bind_ok, inner_pure_cons]
    by_cases hc : (record_keys r).contains k
    · rw [if_pos hc]
      refine ih ?_ ?_ ?_
      · intro k2 hk2
        rw [ft_update_keys]
        exact hmem k2 (.tail k hk2)
      · rw [ft_update_keys]; exact hnd
      · exact ft_update_inv o data_list hinv k
    · rw [if_neg hc]
      exact ih (fun k2 hk2 => hmem k2 (.tail k hk2)) hnd hinv

/-- Pure version of the full double loop of dict_fields. -/
def outer_pure (o : StrOracle) (data_list : List Record) (keys : List String)
    (recs : List Record) (ft : FtState) : FtState :=
  recs.foldl (fun ft r => inner_pure o data_list r keys ft) ft

theorem outer_pure_nil (o : StrOracle) (data_list : List Record)
    (keys : List String) (ft : FtState) : outer_pure o data_list keys [] ft = ft := rfl

theorem outer_pure_cons (o : StrOracle) (data_list : List Record)
    (keys : List String) (r : Record) (rs : List Record) (ft : FtState) :
    outer_pure o data_list keys (r :: rs) ft =
      outer_pure o data_list keys rs (inner_pure o data_list r keys ft) := rfl

theorem infer_loop_eq (o : StrOracle) (data_list : List Record)
    (keys : List String) (recs : List Record) {ft : FtState}
    (hmem : ∀ k ∈ keys, k ∈ ft.map Prod.fst) (hnd : (ft.map Prod.fst).Nodup)
    (hinv : FtInv o data_list ft) :
    infer_loop o data_list keys ft recs = .ok (outer_pure o data_list keys recs ft) := by
  induction recs generalizing ft with
  | nil => rfl
  | cons r rs ih =>
    unfold infer_loop
    rw [List.foldlM_cons]
    rw [show List.foldlM (step_key o data_list r) ft keys
          = keys.foldlM (step_key o data_list r) ft from rfl]
    rw [inner_loop_eq o data_list r keys hmem hnd hinv, except_bind_ok]
    rw [show (fun ft r => List.foldlM (step_key o data_list r) ft keys) = (fun ft r =>
          keys.foldlM (step_key o data_list r) ft) from rfl]
    rw [show List.foldlM (fun ft r => keys.foldlM (step_key o data_list r) ft)
          (inner_pure o data_list r keys ft) rs
        = infer_loop o data_list keys (inner_pure o data_list r keys ft) rs from rfl]
    rw [outer_pure_cons]
    refine ih ?_ ?_ ?_
    · intro k hk; rw [inner_pure_keys]; exact hmem k hk
    · rw [inner_pure_keys]; exact hnd
    · exact inner_pure_inv o data_list r keys hinv

/-! ### Facts about the sorted key set -/

theorem strInsert_perm (x : String) (l : List String) : (strInsert x l).Perm (x :: l) := by
  induction l with
  | nil => rfl
  | cons y ys ih =>
    simp only [strInsert]
    split
    · rfl
    · exact ((ih.cons y).trans (List.Perm.swap x y ys))

theorem py_sorted_perm (l : List String) : (py_sorted l).Perm l := by
  induction l with
  | nil => rfl
  | cons x xs ih => exact (strInsert_perm x (py_sorted xs)).trans (ih.cons x)

theorem mem_dedupAux (x : String) (l seen : List String) :
    x ∈ dedupAux seen l ↔ x ∈ l ∧ x ∉ seen := by
  induction l generalizing seen with
  | nil => simp [dedupAux]
  | cons y ys ih =>
    simp only [dedupAux]
    split
    · rename_i hy
      rw [ih]
      constructor
      · rintro ⟨h1, h2⟩; exact ⟨.tail _ h1, h2⟩
      · rintro ⟨h1, h2⟩
        rcases List.mem_cons.mp h1 with rfl | h1
        · exact absurd hy h2
        · exact ⟨h1, h2⟩
    · rename_i hy
      by_cases hxy : x = y
      · subst hxy; simp [hy]
      · simp only [List.mem_cons, hxy, false_or, ih, not_or]
  
theorem dedupAux_nodup (l seen : List String) : (dedupAux seen l).Nodup := by
  induction l generalizing seen with
  | nil => simp [dedupAux]
  | cons y ys ih =>
    simp only [dedupAux]
    split
    · exact ih seen
    · refine List.nodup_cons.mpr ⟨fun hmem => ?_, ih (y :: seen)⟩
      have := (mem_dedupAux y ys (y :: seen)).mp hmem
      exact this.2 (List.mem_cons_self y seen)

theorem mem_py_dedup (x : String) (l : List String) : x ∈ py_dedup l ↔ x ∈ l := by
  simp [py_dedup, mem_dedupAux]

theorem py_dedup_nodup (l : List String) : (py_dedup l).Nodup := dedupAux_nodup l []

theorem mem_py_sorted (x : String) (l : List String) : x ∈ py_sorted l ↔ x ∈ l :=
  (py_sorted_perm l).mem_iff

theorem py_sorted_nodup (l : List String) (h : l.Nodup) : (py_sorted l).Nodup :=
  (py_sorted_perm l).nodup_iff.mpr h

theorem mem_foldl_append_keys (data : List Record) (acc : List String) (k : String) :
    k ∈ data.foldl (fun acc r => acc ++ record_keys r) acc ↔
      k ∈ acc ∨ ∃ r ∈ data, k ∈ record_keys r := by
  induction data generalizing acc with
  | nil => simp
  | cons r rs ih =>
    rw [List.foldl_cons, ih]
    rw [List.mem_append]
    constructor
    · rintro (⟨h | h⟩ | ⟨r2, hr2, hk⟩)
      · exact .inl h
      · exact .inr ⟨r, .head rs, h⟩
      · exact .inr ⟨r2, .tail r hr2, hk⟩
    · rintro (h | ⟨r2, hr2, hk⟩)
      · exact .inl (.inl h)
      · rcases List.mem_cons.mp hr2 with rfl | hr2
        · exact .inl (.inr hk)
        · exact .inr ⟨r2, hr2, hk⟩

theorem mem_all_keys_sorted (data : List Record) (k : String) :
    k ∈ all_keys_sorted data ↔ ∃ r ∈ data, k ∈ record_keys r := by
  unfold all_keys_sorted
  rw [mem_py_sorted, mem_py_dedup, mem_foldl_append_keys]
  simp

theorem all_keys_sorted_nodup (data : List Record) : (all_keys_sorted data).Nodup :=
  py_sorted_nodup _ (py_dedup_nodup _)

/-! ### Filter characterization of the loop result -/

theorem filter_ft_update_same (ft : FtState) (k ty : String) :
    (ft_update ft k ty).filter (fun p => p.1 == k) =
      (ft.filter (fun p => p.1 == k)).map (fun p => (p.1, some ty)) := by
  induction ft with
  | nil => rfl
  | cons p ps ih =>
    unfold ft_update at ih ⊢
    by_cases hp : p.1 = k
    · simp only [beq_iff_eq] at ih
      simp [List.filter_cons, hp, ih]
    · simp only [beq_iff_eq] at ih
      simp [List.filter_cons, hp, ih]

theorem filter_ft_update_ne (ft : FtState) {k k2 : String} (hne : k2 ≠ k) (ty : String) :
    (ft_update ft k ty).filter (fun p => p.1 == k2) = ft.filter (fun p => p.1 == k2) := by
  induction ft with
  | nil => rfl
  | cons p ps ih =>
    unfold ft_update at ih ⊢
    simp only [beq_iff_eq] at ih
    by_cases hp : p.1 = k
    · have h2 : ¬ p.1 = k2 := by rw [hp]; exact fun hh => hne hh.symm
      have hkk2 : ¬ k = k2 := fun hh => hne hh.symm
      simp [List.filter_cons, hp, h2, hkk2, ih]
    · by_cases h2 : p.1 = k2
      · simp [List.filter_cons, hp, h2, hne, ih]
      · simp [List.filter_cons, hp, h2, ih]

theorem filter_inner_pure (o : StrOracle) (data_list : List Record) (r : Record)
    (keys : List String) (ft : FtState) (k : String) :
    (inner_pure o data_list r keys ft).filter (fun p => p.1 == k) =
      if k ∈ keys ∧ (record_keys r).contains k = true
      then (ft.filter (fun p => p.1 == k)).map
        (fun p => (p.1, some (infer_field_type o data_list k)))
      else ft.filter (fun p => p.1 == k) := by
  induction keys generalizing ft with
  | nil => simp [inner_pure_nil]
  | cons k0 ks ih =>
    rw [inner_pure_cons]
    by_cases hk0 : k = k0
    · subst hk0
      by_cases hc : (record_keys r).contains k
      · rw [if_pos hc, ih]
        by_cases hks : k ∈ ks ∧ (record_keys r).contains k = true
        · rw [if_pos hks, if_pos ⟨List.mem_cons_self k ks, hc⟩]
          rw [filter_ft_update_same, List.map_map]
          rfl
        · rw [if_neg hks, if_pos ⟨List.mem_cons_self k ks, hc⟩]
          rw [filter_ft_update_same]
      · rw [if_neg hc, ih]
        have hno : ¬ (k ∈ k :: ks ∧ (record_keys r).contains k = true) := by
          rintro ⟨_, hcc⟩; exact hc hcc
        have hno2 : ¬ (k ∈ ks ∧ (record_keys r).contains k = true) := by
          rintro ⟨_, hcc⟩; exact hc hcc
        rw [if_neg hno2, if_neg hno]
    · by_cases hc : (record_keys r).contains k0
      · rw [if_pos hc, ih, filter_ft_update_ne ft hk0]
        by_cases hks : k ∈ ks ∧ (record_keys r).contains k = true
        · rw [if_pos hks, if_pos ⟨.tail k0 hks.1, hks.2⟩]
        · rw [if_neg hks]
          have hno : ¬ (k ∈ k0 :: ks ∧ (record_keys r).contains k = true) := by
            rintro ⟨hmem2, hcc⟩
            rcases List.mem_cons.mp hmem2 with rfl | hmem2
            · exact hk0 rfl
            · exact hks ⟨hmem2, hcc⟩
          rw [if_neg hno]
      · rw [if_neg hc, ih]
        by_cases hks : k ∈ ks ∧ (record_keys r).contains k = true
        · rw [if_pos hks, if_pos ⟨.tail k0 hks.1, hks.2⟩]
        · rw [if_neg hks]
          have hno : ¬ (k ∈ k0 :: ks ∧ (record_keys r).contains k = true) := by
            rintro ⟨hmem2, hcc⟩
            rcases List.mem_cons.mp hmem2 with rfl | hmem2
            · exact hc hcc
            · exact hks ⟨hmem2, hcc⟩
          rw [if_neg hno]

theorem filter_outer_pure (o : StrOracle) (data_list : List Record)
    (keys : List String) (recs : List Record) (ft : FtState) (k : String) :
    (outer_pure o data_list keys recs ft).filter (fun p => p.1 == k) =
      if k ∈ keys ∧ ∃ r ∈ recs, (record_keys r).contains k = true
      then (ft.filter (fun p => p.1 == k)).map
        (fun p => (p.1, some (infer_field_type o data_list k)))
      else ft.filter (fun p => p.1 == k) := by
  induction recs generalizing ft with
  | nil => simp [outer_pure_nil]
  | cons r rs ih =>
    rw [outer_pure_cons, ih, filter_inner_pure]
    by_cases hk : k ∈ keys <;>
      by_cases hc : k ∈ record_keys r <;>
        by_cases hrs : ∃ r2 ∈ rs, k ∈ record_keys r2 <;>
          simp [hk, hc, hrs, List.exists_mem_cons_iff, List.map_map, Function.comp]

theorem ft_init_keys (keys : List String) :
    ((keys.map (fun k => (k, (none : Option String)))) : FtState).map Prod.fst = keys := by
  rw [List.map_map]
  exact List.map_id' keys

theorem ft_init_inv (o : StrOracle) (data_list : List Record) (keys : List String) :
    FtInv o data_list (keys.map (fun k => (k, (none : Option String)))) := by
  intro p hp
  obtain ⟨k, _, rfl⟩ := List.mem_map.mp hp
  exact .inl rfl

theorem ft_init_filter (keys : List String) (hnd : keys.Nodup) (k : String) :
    ((keys.map (fun k => (k, (none : Option String)))) : FtState).filter
        (fun p => p.1 == k) =
      if k ∈ keys then [(k, (none : Option String))] else [] := by
  induction keys with
  | nil => rfl
  | cons k0 ks ih =>
    rw [List.nodup_cons] at hnd
    rw [List.map_cons]
    by_cases hk0 : k0 = k
    · subst hk0
      rw [List.filter_cons_of_pos (by simp), ih hnd.2, if_pos (List.mem_cons_self k0 ks)]
      rw [if_neg hnd.1]
    · rw [List.filter_cons_of_neg (by simpa using hk0), ih hnd.2]
      by_cases hk : k ∈ ks
      · rw [if_pos hk, if_pos (.tail k0 hk)]
      · rw [if_neg hk, if_neg (by
          intro hh
          rcases List.mem_cons.mp hh with rfl | hh
          · exact hk0 rfl
          · exact hk hh)]

theorem flatMap_singletons {α β : Type} (l : List α) (f : α → List β) (g : α → β)
    (h : ∀ x ∈ l, f x = [g x]) : l.flatMap f = l.map g := by
  induction l with
  | nil => rfl
  | cons x xs ih =>
    rw [List.flatMap_cons, List.map_cons, h x (.head xs),
      ih (fun y hy => h y (.tail x hy))]
    rfl

/-- Central characterization of dict_fields on a non-empty sample: the run
never raises, and the returned fields are exactly the keys of the first
record, in their record order, each with the type _infer_field_type computes
for it over the whole sample. -/
theorem dict_fields_cons_eq (o : StrOracle) (first : Record) (rest : List Record) :
    dict_fields o (first :: rest) =
      .ok ((record_keys first).map
        (fun k => (k, some (infer_field_type o (first :: rest) k)))) := by
  have hnd0 : (all_keys_sorted (first :: rest)).Nodup := all_keys_sorted_nodup _
  have hmem0 : ∀ k ∈ all_keys_sorted (first :: rest),
      k ∈ ((all_keys_sorted (first :: rest)).map
        (fun k => (k, (none : Option String))) : FtState).map Prod.fst := by
    intro k hk
    rw [ft_init_keys]
    exact hk
  have hred : dict_fields o (first :: rest)
      = (infer_loop o (first :: rest) (all_keys_sorted (first :: rest))
          ((all_keys_sorted (first :: rest)).map (fun k => (k, (none : Option String))))
          (first :: rest)).map
        (fun ft => (record_keys first).flatMap (fun k => ft.filter (fun p => p.1 == k))) := rfl
  rw [hred]
  rw [infer_loop_eq o (first :: rest) (all_keys_sorted (first :: rest)) (first :: rest)
    hmem0 (by rw [ft_init_keys]; exact hnd0) (ft_init_inv o _ _)]
  show Except.ok ((record_keys first).flatMap
      (fun k => (outer_pure o (first :: rest) (all_keys_sorted (first :: rest)) (first :: rest)
        ((all_keys_sorted (first :: rest)).map (fun k => (k, (none : Option String))))).filter
          (fun p => p.1 == k)))
    = Except.ok ((record_keys first).map
        (fun k => (k, some (infer_field_type o (first :: rest) k))))
  refine congrArg Except.ok ?_
  refine flatMap_singletons _ _ _ (fun k hk => ?_)
  rw [filter_outer_pure]
  have hkall : k ∈ all_keys_sorted (first :: rest) :=
    (mem_all_keys_sorted _ k).mpr ⟨first, .head rest, hk⟩
  have hcont : (record_keys first).contains k = true := by simpa using hk
  rw [if_pos ⟨hkall, ⟨first, .head rest, hcont⟩⟩]
  rw [ft_init_filter _ hnd0 k, if_pos hkall]
  rfl

/-! ### Claims C5, C6, C7, C8 -/

/-- C8: for every input list of records and every oracle, dict_fields never
raises: the inconsistency ValueError (and the field_types KeyError) branch is
unreachable, because _infer_field_type is a pure function of the whole data
list and the key, so every per-record recomputation returns the type first
recorded. -/
theorem dict_fields_never_inconsistent (o : StrOracle) (data_list : List Record) :
    ∃ fs, dict_fields o data_list = Except.ok fs := by
  cases data_list with
  | nil => exact ⟨[], rfl⟩
  | cons first rest => exact ⟨_, dict_fields_cons_eq o first rest⟩

/-- C5 (amended): for every non-empty sample, the Schema produced by
dict_fields lists exactly the keys of the FIRST record, in the first record
key order, each paired with the type inferred over the whole sample.  Field
names that appear only in later records are dropped by the final reorder
(line 215), not appended. -/
theorem dict_fields_first_record_order (o : StrOracle) (first : Record)
    (rest : List Record) :
    dict_fields o (first :: rest) =
      .ok ((record_keys first).map
        (fun k => (k, some (infer_field_type o (first :: rest) k)))) :=
  dict_fields_cons_eq o first rest

/-- C5 counterexample: on the sample [ (a : None), (b : None) ] the field b,
which appears only in the second record, is absent from the output: the
returned Schema is just the field a of type string, contradicting the claim
that later-only fields are appended after the first record fields. -/
theorem dict_fields_drops_later_fields :
    dict_fields py_oracle [[("a", PyVal.vnone)], [("b", PyVal.vnone)]]
        = Except.ok [("a", some "string")]
      ∧ "b" ∉ (["a"] : List String) := ⟨rfl, by decide⟩

/-- C6 counterexample: on the sample [ (age : 30), (age : "25") ] the
inferred type of age is datetime, not integer: dateutil parses the bare
numeral "25" as a date, and the datetime rule precedes all numeric rules.
(Had the datetime rule not fired, the float rule would produce double, since
float("25") succeeds; integer is unreachable for this sample.) -/
theorem infer_age_sample_not_integer :
    dict_fields py_oracle [[("age", PyVal.vint 30)], [("age", PyVal.vstr "25")]]
        = Except.ok [("age", some "datetime")]
      ∧ "datetime" ≠ "integer" := ⟨rfl, by decide⟩

/-- C6 (amended): infer([(age : 30), (age : "25")]) succeeds and assigns the
field age the type datetime (the string "25" is accepted by the dateutil
parser, and the datetime rule has highest precedence). -/
theorem infer_age_sample_datetime :
    dict_fields py_oracle [[("age", PyVal.vint 30)], [("age", PyVal.vstr "25")]]
        = Except.ok [("age", some "datetime")] := rfl

/-- C7 counterexample: infer([(a : 1), (a : "x")]) does NOT raise the
schema-consistency error: it returns a Schema assigning a the type boolean,
because the integer 1 is in the set 0,1 and so matches the boolean rule,
which wins for every value of the field. -/
theorem infer_mixed_sample_returns_ok :
    dict_fields py_oracle [[("a", PyVal.vint 1)], [("a", PyVal.vstr "x")]]
        = Except.ok [("a", some "boolean")] := rfl

/-- C7 (amended): infer([(a : 1), (a : "x")]) succeeds with no error and
assigns field a the type boolean (1 matches the boolean rule before the
double and integer rules are ever consulted; the per-record recomputation
always returns the same type, so the consistency error cannot fire). -/
theorem infer_mixed_sample_boolean :
    (dict_fields py_oracle [[("a", PyVal.vint 1)], [("a", PyVal.vstr "x")]]).toOption
        = some [("a", some "boolean")] := rfl

/-! ### Pagination models

The pagination loops of GqlFetchGithub and GqlFetchLinear consume one
GraphQL response per iteration.  A run is modelled on the finite list of
responses the endpoint would serve, consumed in cursor order; asking for a
page beyond the list is the out_of_pages error (a well-formed sequence ends
with hasNextPage false, so a faithful run never reaches it). -/

/-- Python exceptions raised by the pagination code: KeyError from a direct
dict index, TypeError/AttributeError from operating on a non-dict/non-list,
and the artificial out_of_pages marker of the model. -/
inductive PyErr where
  | key_error (k : String)
  | type_error
  | attr_error
  | out_of_pages

/-- The Python check: limit is not None and count >= limit. -/
def matchesLimit : Option Nat → Nat → Bool
  | none, _ => false
  | some l, n => l ≤ n

/-- Python dict assignment d[k] = v: overwrite in place when the key exists
(last write wins), else append. -/
def dict_set {α : Type} (d : List (String × α)) (k : String) (v : α) :
    List (String × α) :=
  if d.any (fun p => p.1 == k) then d.map (fun p => if p.1 == k then (p.1, v) else p)
  else d ++ [(k, v)]

/-- Embedding of GqlFetchGithub.pr_permalink_to_name: strip the
github.com prefix, drop /pull, turn / into -. -/
def pr_permalink_to_name (prpermalink : String) : String :=
  py_replace (py_replace (py_replace prpermalink "https://github.com/" "") "/pull" "") "/" "-"

/-- One page of the pullRequests connection, at the shape get_repo_prs reads:
the nodes (carried with their permalink string), hasNextPage and endCursor. -/
structure PrPage (α : Type) where
  nodes : List (String × α)
  hasNextPage : Bool
  endCursor : String

/-- One page of the Linear teams connection, at the shape get_teams reads. -/
structure TeamPage (α : Type) where
  nodes : List α
  hasNextPage : Bool
  endCursor : String

/-- Accumulation of one PR page into the prs dict: keyed by
pr_permalink_to_name of the node permalink, last write wins. -/
def page_step {α : Type} (d : List (String × α)) (page : PrPage α) :
    List (String × α) :=
  page.nodes.foldl (fun d p => dict_set d (pr_permalink_to_name p.1) p.2) d

/-- Embedding of the loop of GqlFetchGithub.get_repo_prs (lines 301-316):
accumulate the page into prs; with a batch callback deliver prs and reset it
to empty; stop when hasNextPage is false, else when limit is set and
len(prs) >= limit; otherwise advance.  Returns the final prs, the list of
delivered batches and the number of pages fetched. -/
def get_repo_prs_go {α : Type} (use_cb : Bool) (limit : Option Nat) :
    List (PrPage α) → List (String × α) → List (List (String × α)) → Nat →
    Except PyErr (List (String × α) × List (List (String × α)) × Nat)
  | [], _, _, _ => .error .out_of_pages
  | page :: rest, prs, delivered, fetched =>
    let prs2 := page_step prs page
    let delivered2 := if use_cb then delivered ++ [prs2] else delivered
    let prs3 := if use_cb then [] else prs2
    if !page.hasNextPage then .ok (prs3, delivered2, fetched + 1)
    else if matchesLimit limit prs3.length then .ok (prs3, delivered2, fetched + 1)
    else get_repo_prs_go use_cb limit rest prs3 delivered2 (fetched + 1)

/-- Run get_repo_prs from the initial state (empty prs, nothing delivered). -/
def get_repo_prs {α : Type} (use_cb : Bool) (limit : Option Nat)
    (pages : List (PrPage α)) :
    Except PyErr (List (String × α) × List (List (String × α)) × Nat) :=
  get_repo_prs_go use_cb limit pages [] [] 0

/-- Embedding of the loop of GqlFetchLinear.get_teams (lines 397-414):
extend the teams list with each page of nodes, stop on hasNextPage false or
on the limit, then return data.get('teams').get('nodes') of the LAST
response - not the accumulator.  The result carries (returned value, final
teams accumulator, pages fetched). -/
def get_teams_go {α : Type} (limit : Option Nat) :
    List (TeamPage α) → List α → Nat → Except PyErr (List α × List α × Nat)
  | [], _, _ => .error .out_of_pages
  | page :: rest, teams, fetched =>
    let teams2 := teams ++ page.nodes
    if !page.hasNextPage then .ok (page.nodes, teams2, fetched + 1)
    else if matchesLimit limit teams2.length then .ok (page.nodes, teams2, fetched + 1)
    else get_teams_go limit rest teams2 (fetched + 1)

/-- Run get_teams from the initial state. -/
def get_teams {α : Type} (limit : Option Nat) (pages : List (TeamPage α)) :
    Except PyErr (List α × List α × Nat) :=
  get_teams_go limit pages [] 0

/-! ### Raw response model for get_repositories (dict level) -/

/-- Python dict.get(k, dflt): the value under k, or the default; on any
non-dict receiver an AttributeError. -/
def py_get (v : PyVal) (k : String) (dflt : PyVal) : Except PyErr PyVal :=
  match v with
  | .vdict d => .ok (((d.find? (fun p => p.1 == k)).map (·.2)).getD dflt)
  | _ => .error .attr_error

/-- Python d[k] on a dict: KeyError when the key is absent; TypeError when
indexing a non-dict. -/
def py_index (v : PyVal) (k : String) : Except PyErr PyVal :=
  match v with
  | .vdict d =>
    match d.find? (fun p => p.1 == k) with
    | some p => .ok p.2
    | none => .error (.key_error k)
  | _ => .error .type_error

/-- Iterating a Python value as a list (TypeError when it is not one). -/
def as_vlist : PyVal → Except PyErr (List PyVal)
  | .vlist xs => .ok xs
  | _ => .error .type_error

/-- Using a Python value as a string dict key in this model. -/
def as_vstr : PyVal → Except PyErr String
  | .vstr s => .ok s
  | _ => .error .type_error

/-- Python truthiness, as used by the `if not ...` of the loop. -/
def py_truthy : PyVal → Bool
  | .vnone => false
  | .vbool b => b
  | .vint n => !(n == 0)
  | .vfloat q => !(q == 0)
  | .vstr s => !(s == "")
  | .vdatetime _ => true
  | .vlist xs => !xs.isEmpty
  | .vdict d => !d.isEmpty

/-- The soft node extraction of get_repositories (line 251):
data.get('organization', default).get('repositories', default).get('nodes', [])
with empty-dict/empty-list defaults, then iterated as a list. -/
def repo_nodes_soft (data : PyVal) : Except PyErr (List PyVal) := do
  let org ← py_get data "organization" (.vdict [])
  let reposv ← py_get org "repositories" (.vdict [])
  let nodesv ← py_get reposv "nodes" (.vlist [])
  as_vlist nodesv

/-- The hard pageInfo extraction of get_repositories (lines 253, 257):
data['organization']['repositories']['pageInfo']. -/
def repo_page_info (data : PyVal) : Except PyErr PyVal := do
  let org ← py_index data "organization"
  let rep ← py_index org "repositories"
  py_index rep "pageInfo"

/-- Embedding of the loop of GqlFetchGithub.get_repositories (lines 249-258)
at the raw response level: soft node extraction, accumulation keyed by
repo['name'] (last write wins), hard hasNextPage indexing for the break test
and hard endCursor indexing for the cursor advance.  Returns the
repositories dict and the number of pages fetched. -/
def get_repositories_go (limit : Option Nat) :
    List PyVal → List (String × PyVal) → Nat →
    Except PyErr (List (String × PyVal) × Nat)
  | [], _, _ => .error .out_of_pages
  | data :: rest, repositories, fetched => do
    let nodes ← repo_nodes_soft data
    let repositories2 ← nodes.foldlM (fun d repo => do
        let namev ← py_index repo "name"
        let name ← as_vstr namev
        pure (dict_set d name repo)) repositories
    let pinfo ← repo_page_info data
    let hn ← py_index pinfo "hasNextPage"
    if !py_truthy hn then pure (repositories2, fetched + 1)
    else if matchesLimit limit repositories2.length then pure (repositories2, fetched + 1)
    else do
      let _cursor ← py_index pinfo "endCursor"
      get_repositories_go limit rest repositories2 (fetched + 1)

/-- Run get_repositories from the initial state (empty dict). -/
def get_repositories (limit : Option Nat) (responses : List PyVal) :
    Except PyErr (List (String × PyVal) × Nat) :=
  get_repositories_go limit responses [] 0

/-- A well-formed repository node as served by the endpoint (name plus an
integer payload standing for the rest of the record). -/
def mk_repo_node (name : String) (payload : Int) : PyVal :=
  .vdict [("name", .vstr name), ("id", .vint payload)]

/-- A well-formed get_repositories response page. -/
def mk_repo_response (nodes : List PyVal) (has_next : Bool) (cursor : String) : PyVal :=
  .vdict [("organization", .vdict [("repositories", .vdict
    [("nodes", .vlist nodes),
     ("pageInfo", .vdict [("hasNextPage", .vbool has_next),
                          ("endCursor", .vstr cursor)])])])]

/-! ### Claims C2 and C9 -/

/-- Three well-formed get_repositories pages of sizes 2, 2, 1 with distinct
repository names. -/
def c2_repo_pages : List PyVal :=
  [ mk_repo_response [mk_repo_node "r1" 1, mk_repo_node "r2" 2] true "c1",
    mk_repo_response [mk_repo_node "r3" 3, mk_repo_node "r4" 4] true "c2",
    mk_repo_response [mk_repo_node "r5" 5] false "c3" ]

/-- The same page shape, with the name r1 repeated on the second page. -/
def c2_repo_pages_dup : List PyVal :=
  [ mk_repo_response [mk_repo_node "r1" 1, mk_repo_node "r2" 2] true "c1",
    mk_repo_response [mk_repo_node "r1" 9, mk_repo_node "r4" 4] true "c2",
    mk_repo_response [mk_repo_node "r5" 5] false "c3" ]

/-- Three Linear team pages of sizes 2, 2, 1. -/
def c2_team_pages : List (TeamPage Int) :=
  [⟨[1, 2], true, "c1"⟩, ⟨[3, 4], true, "c2"⟩, ⟨[5], false, "c3"⟩]

/-- C2: over 3 pages of sizes 2, 2, 1 with no limit and no callback,
get_repositories returns the 5-entry mapping keyed by repo name (and with a
repeated name, one fewer entry with the later record winning in place) - as
the claim states; but get_teams returns ONLY the final page's nodes (here the
single team 5), although its teams accumulator does hold all 5 records: line
414 returns data.get('teams').get('nodes') of the last response instead of
the accumulator, contradicting the claim and the function's own docstring. -/
theorem pagination_accumulator_run :
    get_repositories none c2_repo_pages =
        .ok ([("r1", mk_repo_node "r1" 1), ("r2", mk_repo_node "r2" 2),
              ("r3", mk_repo_node "r3" 3), ("r4", mk_repo_node "r4" 4),
              ("r5", mk_repo_node "r5" 5)], 3)
  ∧ get_repositories none c2_repo_pages_dup =
        .ok ([("r1", mk_repo_node "r1" 9), ("r2", mk_repo_node "r2" 2),
              ("r4", mk_repo_node "r4" 4), ("r5", mk_repo_node "r5" 5)], 3)
  ∧ get_teams none c2_team_pages = .ok ([5], [1, 2, 3, 4, 5], 3) :=
  ⟨rfl, rfl, rfl⟩

theorem except_bind_err {ε α β : Type} (e : ε) (f : α → Except ε β) :
    ((Except.error e : Except ε α) >>= f) = Except.error e := rfl

theorem except_pure_bind {ε α β : Type} (a : α) (f : α → Except ε β) :
    ((pure a : Except ε α) >>= f) = f a := rfl

/-- C9 (amended): when the segment organization is absent from a response,
the node extraction fails soft (the .get chain yields the empty list, so the
page contributes zero items), but the pagination loop then indexes
data['organization'] directly for pageInfo, so the run raises KeyError
instead of completing. -/
theorem get_repositories_missing_path (d : List (String × PyVal))
    (rest : List PyVal) (limit : Option Nat)
    (hfind : d.find? (fun p => p.1 == "organization") = none) :
    repo_nodes_soft (.vdict d) = .ok []
    ∧ get_repositories limit (.vdict d :: rest) = .error (.key_error "organization") := by
  have h1 : py_get (.vdict d) "organization" (.vdict []) = .ok (.vdict []) := by
    show Except.ok (((d.find? (fun p => p.1 == "organization")).map (·.2)).getD (.vdict []))
        = Except.ok (.vdict [])
    rw [hfind]
    rfl
  have hsoft : repo_nodes_soft (.vdict d) = .ok [] := by
    unfold repo_nodes_soft
    rw [h1, except_bind_ok]
    rfl
  have hidx : py_index (.vdict d) "organization" = .error (.key_error "organization") := by
    show (match d.find? (fun p => p.1 == "organization") with
          | some p => Except.ok p.2
          | none => Except.error (PyErr.key_error "organization")) =
      Except.error (PyErr.key_error "organization")
    rw [hfind]
  have hpi : repo_page_info (.vdict d) = .error (.key_error "organization") := by
    unfold repo_page_info
    rw [hidx, except_bind_err]
  refine ⟨hsoft, ?_⟩
  unfold get_repositories get_repositories_go
  rw [hsoft, except_bind_ok, List.foldlM_nil, except_pure_bind, hpi, except_bind_err]

/-- C9 counterexample: a run over the single empty-dict response does not
complete: it raises KeyError for organization, although the same response
contributes zero items to the accumulator. -/
theorem get_repositories_missing_path_raises :
    get_repositories none [PyVal.vdict []] = .error (.key_error "organization") := rfl

/-- C9 witness: the amended statement instantiated at the empty response. -/
theorem get_repositories_missing_path_witness :
    repo_nodes_soft (.vdict []) = .ok []
    ∧ get_repositories none [PyVal.vdict []] = .error (.key_error "organization") :=
  get_repositories_missing_path [] [] none rfl

/-! ### Claim C3: limit semantics of get_repo_prs -/

/-- Without a callback, whenever the run of get_repo_prs returns after n
pages, every page except the last was fetched while the accumulated count
was still below the limit: the loop halts as soon as len(prs) >= limit. -/
theorem get_repo_prs_go_halt {α : Type} (L : ℕ) :
    ∀ (pages : List (PrPage α)) (prs0 : List (String × α))
      (del0 : List (List (String × α))) (f0 : ℕ) res del n,
      get_repo_prs_go false (some L) pages prs0 del0 f0 = .ok (res, del, n) →
      ∀ j, f0 + j + 1 < n → ((pages.take (j + 1)).foldl page_step prs0).length < L := by
  intro pages
  induction pages with
  | nil =>
    intro prs0 del0 f0 res del n h
    simp [get_repo_prs_go] at h
  | cons page rest ih =>
    intro prs0 del0 f0 res del n h j hj
    rw [show get_repo_prs_go false (some L) (page :: rest) prs0 del0 f0
          = (if !page.hasNextPage
             then .ok (page_step prs0 page, del0, f0 + 1)
             else if matchesLimit (some L) (page_step prs0 page).length
             then .ok (page_step prs0 page, del0, f0 + 1)
             else get_repo_prs_go false (some L) rest (page_step prs0 page) del0 (f0 + 1))
        from rfl] at h
    by_cases hnext : page.hasNextPage
    · rw [hnext, Bool.not_true, if_neg (show ¬ (false = true) by decide)] at h
      by_cases hlim : matchesLimit (some L) (page_step prs0 page).length = true
      · rw [if_pos hlim] at h
        injection h with h2
        have hn : f0 + 1 = n := congrArg (fun t => t.2.2) h2
        omega
      · rw [if_neg hlim] at h
        have hlen : (page_step prs0 page).length < L := by
          simp [matchesLimit] at hlim
          omega
        cases j with
        | zero => exact hlen
        | succ j2 =>
          have hrec := ih (page_step prs0 page) del0 (f0 + 1) res del n h j2 (by omega)
          simpa [List.take_succ_cons] using hrec
    · have hnf : page.hasNextPage = false := by
        revert hnext; cases page.hasNextPage <;> simp
      rw [hnf, Bool.not_false, if_pos rfl] at h
      injection h with h2
      have hn : f0 + 1 = n := congrArg (fun t => t.2.2) h2
      omega

/-- With a callback the prs dict is reset to empty after every delivery, so
the limit test compares the limit against zero and never fires (for any
limit of at least 1): the run always continues to the first page whose
hasNextPage is false. -/
theorem get_repo_prs_go_cb_runs_all {α : Type} (L : ℕ) (hL : 1 ≤ L) :
    ∀ (pages : List (PrPage α)) (del0 : List (List (String × α))) (f0 : ℕ) res del n,
      get_repo_prs_go true (some L) pages [] del0 f0 = .ok (res, del, n) →
      n = f0 + pages.findIdx (fun p => !p.hasNextPage) + 1 := by
  intro pages
  induction pages with
  | nil =>
    intro del0 f0 res del n h
    simp [get_repo_prs_go] at h
  | cons page rest ih =>
    intro del0 f0 res del n h
    rw [show get_repo_prs_go true (some L) (page :: rest) [] del0 f0
          = (if !page.hasNextPage
             then .ok ([], del0 ++ [page_step [] page], f0 + 1)
             else if matchesLimit (some L) ([] : List (String × α)).length
             then .ok ([], del0 ++ [page_step [] page], f0 + 1)
             else get_repo_prs_go true (some L) rest [] (del0 ++ [page_step [] page]) (f0 + 1))
        from rfl] at h
    by_cases hnext : page.hasNextPage
    · rw [hnext, Bool.not_true, if_neg (show ¬ (false = true) by decide)] at h
      have hlim : ¬ (matchesLimit (some L) ([] : List (String × α)).length = true) := by
        simp [matchesLimit]
        omega
      rw [if_neg hlim] at h
      have hrec := ih (del0 ++ [page_step [] page]) (f0 + 1) res del n h
      rw [List.findIdx_cons]
      simp only [hnext, Bool.not_true, cond_false]
      omega
    · have hnf : page.hasNextPage = false := by
        revert hnext; cases page.hasNextPage <;> simp
      rw [hnf, Bool.not_false, if_pos rfl] at h
      injection h with h2
      have hn : f0 + 1 = n := congrArg (fun t => t.2.2) h2
      rw [List.findIdx_cons]
      simp only [hnf, Bool.not_false, cond_true]
      omega

/-- C3 (amended): with limit L and no batch callback, get_repo_prs halts as
soon as the accumulated count reaches L - every page other than the last was
fetched with the count still below L; with a batch callback the prs dict is
reset after each delivery, so the limit check never fires (for L of at least
1) and the run always continues to the first page whose hasNextPage is
false, regardless of how many items were delivered. -/
theorem get_repo_prs_limit_behaviour :
    (∀ (α : Type) (L : ℕ) (pages : List (PrPage α)) res del n,
        get_repo_prs false (some L) pages = .ok (res, del, n) →
        ∀ j, j + 1 < n → ((pages.take (j + 1)).foldl page_step []).length < L)
  ∧ (∀ (α : Type) (L : ℕ) (pages : List (PrPage α)) res del n, 1 ≤ L →
        get_repo_prs true (some L) pages = .ok (res, del, n) →
        n = pages.findIdx (fun p => !p.hasNextPage) + 1) := by
  constructor
  · intro α L pages res del n h j hj
    exact get_repo_prs_go_halt L pages [] [] 0 res del n h j (by omega)
  · intro α L pages res del n hL h
    have := get_repo_prs_go_cb_runs_all L hL pages [] 0 res del n h
    omega

/-- Two PR pages of one node each; the first page has a next page. -/
def c3_cb_pages : List (PrPage Int) :=
  [⟨[("https://github.com/o/r/pull/1", 1)], true, "c1"⟩,
   ⟨[("https://github.com/o/r/pull/2", 2)], false, "c2"⟩]

/-- Three PR pages of one node each with distinct names. -/
def c3_nocb_pages : List (PrPage Int) :=
  [⟨[("https://github.com/o/r/pull/1", 1)], true, "c1"⟩,
   ⟨[("https://github.com/o/r/pull/2", 2)], true, "c2"⟩,
   ⟨[("https://github.com/o/r/pull/3", 3)], false, "c3"⟩]

/-- C3 counterexample: with a batch callback and limit 1, the first page
already delivers one item (reaching the limit), yet the run fetches the
second page as well - 2 pages, not 1: the claim fails in the callback case. -/
theorem get_repo_prs_cb_ignores_limit :
    get_repo_prs true (some 1) c3_cb_pages
        = .ok ([], [[("o-r-1", (1 : Int))], [("o-r-2", 2)]], 2)
      ∧ (2 : Nat) ≠ 1 := ⟨rfl, by decide⟩

/-- C3 witness: the amended theorem applied to concrete runs - without a
callback (limit 2, halt after page 2, page 1 fetched below the limit) and
with a callback (limit 1, both pages fetched). -/
theorem get_repo_prs_limit_behaviour_witness :
    ((c3_nocb_pages.take 1).foldl page_step []).length < 2
    ∧ (2 : Nat) = c3_cb_pages.findIdx (fun p => !p.hasNextPage) + 1 :=
  ⟨get_repo_prs_limit_behaviour.1 Int 2 c3_nocb_pages
      [("o-r-1", 1), ("o-r-2", 2)] [] 2 rfl 0 (by decide),
   get_repo_prs_limit_behaviour.2 Int 1 c3_cb_pages
      [] [[("o-r-1", 1)], [("o-r-2", 2)]] 2 (by decide) rfl⟩

/-! ### Claim C4: the adaptive throttle of fetch_prs_callback -/

/-- Embedding of the throttle state machine of fetch_prs_callback
(examples/github_fetch.py lines 96-124), iterated over the batch sizes of a
run: the running maximum fetch_all_max_batch is first raised to the current
batch size, then, when the throttle is positive, a sleep of
throttle * ratio is emitted, with ratio = batch / max when
batch < max * 0.95 and ratio = 1.0 otherwise.  Python float arithmetic is
modelled with rationals. -/
def throttle_go (throttle : ℚ) (max_batch : ℚ) : List ℕ → List ℚ
  | [] => []
  | b :: bs =>
    let max2 := if (b : ℚ) > max_batch then (b : ℚ) else max_batch
    if 0 < throttle then
      (throttle * (if (b : ℚ) < max2 * (95 / 100) then (b : ℚ) / max2 else 1))
        :: throttle_go throttle max2 bs
    else throttle_go throttle max2 bs

/-- The sleeps of a whole run, starting from the initial
fetch_all_max_batch = 1. -/
def fetch_prs_throttle_sleeps (throttle : ℚ) (batches : List ℕ) : List ℚ :=
  throttle_go throttle 1 batches

/-- Modelled from the spec wording of the adaptive throttle: max_batch_seen
is updated to the largest batch size observed so far before computing the
ratio for the current batch; ratio = batch_size / max_batch_seen when
batch_size < 0.95 x max_batch_seen, else 1.0; the sleep is
throttle_seconds x ratio. -/
def spec_throttle_go (throttle : ℚ) (max_batch : ℚ) : List ℕ → List ℚ
  | [] => []
  | b :: bs =>
    let m := max max_batch (b : ℚ)
    (throttle * (if (b : ℚ) < (95 / 100) * m then (b : ℚ) / m else 1))
      :: spec_throttle_go throttle m bs

/-- C4 (amended): for positive throttle the code emits exactly the sleeps of
the spec formula, and for batches [4, 4, 1] the three sleeps are
T x 1.0, T x 1.0 and T x (1/4): the reduced sleep follows the small final
batch (after the 3rd batch), while the sleep before the 3rd page is T x 1.0. -/
theorem fetch_prs_throttle_behaviour :
    (∀ (T : ℚ) (batches : List ℕ), 0 < T →
        fetch_prs_throttle_sleeps T batches = spec_throttle_go T 1 batches)
  ∧ (∀ T : ℚ, 0 < T →
        fetch_prs_throttle_sleeps T [4, 4, 1] = [T, T, T * (1 / 4)]) := by
  constructor
  · intro T batches hT
    unfold fetch_prs_throttle_sleeps
    suffices h : ∀ (bs : List ℕ) (m : ℚ), throttle_go T m bs = spec_throttle_go T m bs by
      exact h batches 1
    intro bs
    induction bs with
    | nil => intro m; rfl
    | cons b bs2 ih =>
      intro m
      unfold throttle_go spec_throttle_go
      have hmax : (if (b : ℚ) > m then (b : ℚ) else m) = max m (b : ℚ) := by
        rcases le_or_lt (b : ℚ) m with hle | hlt
        · rw [if_neg (not_lt.mpr hle), max_eq_left hle]
        · rw [if_pos hlt, max_eq_right hlt.le]
      rw [hmax, if_pos hT, ih]
      rw [mul_comm (max m (b : ℚ)) (95 / 100)]
  · intro T hT
    unfold fetch_prs_throttle_sleeps
    norm_num [throttle_go, hT]

/-- C4 counterexample: with T = 1 and batches [4, 4, 1] the sleeps are
[1, 1, 1/4]; the sleep at index 1 (taken after the 2nd batch, before the 3rd
page is fetched) is 1, not 1/4 as the claim states - the 1/4 sleep happens
only after the final batch. -/
theorem fetch_prs_throttle_cex :
    fetch_prs_throttle_sleeps 1 [4, 4, 1] = [1, 1, 1 / 4]
    ∧ ((1 : ℚ) ≠ 1 / 4) := by
  constructor
  · norm_num [fetch_prs_throttle_sleeps, throttle_go]
  · norm_num

/-- C4 witness: the amended theorem applied at T = 2. -/
theorem fetch_prs_throttle_behaviour_witness :
    fetch_prs_throttle_sleeps 2 [4, 4, 1] = [2, 2, 2 * (1 / 4)] :=
  fetch_prs_throttle_behaviour.2 2 (by norm_num)

/-! ### Claim C10: dict_create_table -/

/-- Errors of dict_create_table: the RuntimeError of line 129 (no database
connection) and the ValueError of line 142 (unsupported data type). -/
inductive TableErr where
  | runtime_error
  | value_error (dt : String)

/-- The type_mapping dict of dict_create_table (lines 132-136): only the
three data types string, number and datetime are supported. -/
def type_mapping (dt : String) : Option String :=
  if dt == "string" then some "string"
  else if dt == "number" then some "integer"
  else if dt == "datetime" then some "datetime"
  else none

/-- Embedding of DataFetch.dict_create_table: RuntimeError without an active
connection; otherwise build one Field per schema column in insertion order,
raising ValueError on a data type outside the mapping, and hand the ordered
column list (name, pydal type) to db.define_table.  The returned pair models
that call. -/
def dict_create_table (has_db : Bool) (table_name : String)
    (schema : List (String × String)) :
    Except TableErr (String × List (String × String)) :=
  if has_db = false then .error .runtime_error
  else do
    let fields ← schema.foldlM (fun acc p =>
        match type_mapping p.2 with
        | none => .error (.value_error p.2)
        | some ft => .ok (dict_set acc p.1 ft)) ([] : List (String × String))
    .ok (table_name, fields)

/-- C10 counterexample: with an active connection, the inferred field types
double, integer and boolean are all rejected with ValueError - the claimed
five-type mapping does not exist; only string, number and datetime are
accepted. -/
theorem dict_create_table_rejects_inferred_types :
    dict_create_table true "t" [("f", "double")] = .error (.value_error "double")
    ∧ dict_create_table true "t" [("f", "integer")] = .error (.value_error "integer")
    ∧ dict_create_table true "t" [("f", "boolean")] = .error (.value_error "boolean") :=
  ⟨rfl, rfl, rfl⟩

/-- C10 (amended): with an active connection, dict_create_table accepts
exactly the schema types string, number and datetime, mapping them to the
pydal column types string, integer and datetime respectively, and raises
ValueError for every other type (including the inferred types integer,
double and boolean); without a connection it raises RuntimeError. -/
theorem dict_create_table_supported_types (tn col dt : String) :
    (dict_create_table true tn [(col, dt)] =
      (if dt = "string" then .ok (tn, [(col, "string")])
       else if dt = "number" then .ok (tn, [(col, "integer")])
       else if dt = "datetime" then .ok (tn, [(col, "datetime")])
       else .error (.value_error dt)))
    ∧ (∀ (schema : List (String × String)),
        dict_create_table false tn schema = .error .runtime_error) := by
  refine ⟨?_, fun schema => rfl⟩
  by_cases h1 : dt = "string"
  · subst h1; rfl
  · by_cases h2 : dt = "number"
    · subst h2; rfl
    · by_cases h3 : dt = "datetime"
      · subst h3; rfl
      · simp [dict_create_table, type_mapping, h1, h2, h3]
        rfl
